import Mathlib

/-!
Verification of the business-analytics module `adm.py`.

The program ingests a comma-separated table and produces three analyses:
a per-country Minkowski distance over (employee count, median salary),
a per-country Welch t-statistic over (2020 profit, 2021 profit),
an inner join of those two results, and a per-category ranking of
organisations by summed employee count annotated with a profit-change
percentage.

Embedding conventions:
* Python floats are idealised as real numbers; cells that the program
  parses with `int(...)` / `float(...)` are modelled by a `Cell` carrying
  the raw string together with the parse results (`Option ℤ` / `Option ℚ`),
  since raw-text tokenisation is an external collaborator of the program.
* Python `dict`s preserve insertion order; they are modelled as ordered
  association lists (`List (String × α)`) with in-place update (`upsert`).
* Python exceptions are modelled with `Except PyErr`; `PyErr` separates
  the dimension-mismatch `ValueError` raised by `minkowski_distance`
  from parse `ValueError`s so that reachability claims can be stated.
* `round(x, 4)` and the `f"{x:.4f}"` format use round-half-to-even, as
  Python does.
-/

/-- A parsed cell of the input table: the raw string plus the results of
Python `int(...)` and `float(...)` applied to it. -/
structure Cell where
  raw : String
  asInt : Option ℤ
  asFloat : Option ℚ
deriving DecidableEq, Repr

/-- A cell whose text is an integer literal: both `int` and `float` parse. -/
def intCell (s : String) (n : ℤ) : Cell := ⟨s, some n, some (n : ℚ)⟩

/-- A cell whose text is a float literal: `float` parses, `int` does not. -/
def floatCell (s : String) (q : ℚ) : Cell := ⟨s, none, some q⟩

/-- A cell whose text is not numeric: neither parse succeeds. -/
def strCell (s : String) : Cell := ⟨s, none, none⟩

/-- A data row: the cells produced by splitting one line on commas. -/
abbrev Row := List Cell

/-- The Python exceptions the program can raise.  `dimensionMismatch` is the
`ValueError("Input vectors must have the same dimensionality.")` raised by
`minkowski_distance`; `valueError` covers failed `int()`/`float()`/`.index()`
calls; `indexError` covers out-of-range subscripts; `keyError` covers missing
dict keys; `zeroDivisionError` covers division by zero. -/
inductive PyErr
  | dimensionMismatch
  | valueError
  | indexError
  | keyError
  | zeroDivisionError
deriving DecidableEq, Repr

/-- `header.index(name)` as used by the engines: index of the first matching
column name (`none` models the `ValueError` Python raises when absent). -/
def headerIdx (header : List String) (name : String) : Option Nat :=
  header.findIdx? (· = name)

/-- Python dict update `d[k] = f(d.get(k, dflt))` preserving insertion order:
an existing key is updated in place, a new key is appended at the end. -/
def upsert {α : Type} : List (String × α) → String → α → (α → α) → List (String × α)
  | [], k, dflt, f => [(k, f dflt)]
  | (k', v) :: rest, k, dflt, f =>
    if k' = k then (k', f v) :: rest else (k', v) :: upsert rest k dflt f

/-- The idiom `if k not in d: d[k] = []` followed by `d[k].append(v)`. -/
def appendAt {α : Type} (m : List (String × List α)) (k : String) (v : α) :
    List (String × List α) :=
  upsert m k [] (fun vs => vs ++ [v])

/-- Effectful map over a list in the `Except` monad, failing on the first
error, as a Python `for` loop that builds a list does. -/
def exMapM {α β : Type} (f : α → Except PyErr β) : List α → Except PyErr (List β)
  | [] => .ok []
  | a :: l =>
    match f a with
    | .error e => .error e
    | .ok b =>
      match exMapM f l with
      | .error e => .error e
      | .ok bs => .ok (b :: bs)

/-- Python `round(y)` for a real argument: round half to even. -/
noncomputable def pyround (y : ℝ) : ℤ :=
  let f : ℤ := ⌊y⌋
  let r : ℝ := y - f
  if r < 1 / 2 then f
  else if 1 / 2 < r then f + 1
  else if f % 2 = 0 then f else f + 1

/-- Python `round(y, 4)`. -/
noncomputable def round4 (y : ℝ) : ℝ := (pyround (y * 10000) : ℝ) / 10000

/-! ## Distance Engine -/

/-- `minkowski_distance(x1, x2, p)` (adm.py lines 21-29): raises the
dimension-mismatch `ValueError` when the lengths differ, otherwise returns
`(Σ |x1[i] - x2[i]| ** p) ** (1/p)`.  `**` is real exponentiation. -/
noncomputable def minkowski_distance (x1 x2 : List ℝ) (p : ℝ) : Except PyErr ℝ :=
  if x1.length ≠ x2.length then .error .dimensionMismatch
  else .ok ((List.zipWith (fun a b => |a - b| ^ p) x1 x2).sum ^ ((1 : ℝ) / p))

/-- One iteration of the row loop of `calculate_minkowski_distances`
(adm.py lines 41-50): look up the country cell, then `int(...)` the
employee cell and `float(...)` the salary cell; parse failures propagate
(there is no try/except in this engine). -/
def mRow (header : List String) (ei si : Nat) (row : Row) :
    Except PyErr (String × ℤ × ℚ) :=
  match headerIdx header "country" with
  | none => .error .valueError
  | some ci =>
    match row.get? ci with
    | none => .error .indexError
    | some c =>
      match row.get? ei with
      | none => .error .indexError
      | some ce =>
        match ce.asInt with
        | none => .error .valueError
        | some emp =>
          match row.get? si with
          | none => .error .indexError
          | some cs =>
            match cs.asFloat with
            | none => .error .valueError
            | some sal => .ok (c.raw, emp, sal)

/-- The grouping state of `calculate_minkowski_distances`: the insertion
ordered dict `country_data` mapping country to its (employees, salary)
pairs in row order. -/
abbrev MState := List (String × List (ℤ × ℚ))

/-- The row loop of `calculate_minkowski_distances`. -/
def buildM (header : List String) (ei si : Nat) : List Row → MState → Except PyErr MState
  | [], st => .ok st
  | row :: rest, st =>
    match mRow header ei si row with
    | .error e => .error e
    | .ok (k, emp, sal) => buildM header ei si rest (appendAt st k (emp, sal))

/-- `calculate_minkowski_distances(filename, p=3)` (adm.py lines 31-59) after
the file has been read and split: locate the two feature columns, bucket the
rows per country, then for each country compute the Minkowski distance of
the employee vector against the salary vector, rounded to 4 decimals. -/
noncomputable def calculate_minkowski_distances (header : List String) (rows : List Row)
    (p : ℝ) : Except PyErr (List (String × ℝ)) :=
  match headerIdx header "number of employees" with
  | none => .error .valueError
  | some ei =>
    match headerIdx header "median Salary" with
    | none => .error .valueError
    | some si =>
      match buildM header ei si rows [] with
      | .error e => .error e
      | .ok cd =>
        exMapM (fun ckv =>
          match minkowski_distance (ckv.2.map (fun pt => (pt.1 : ℝ)))
              (ckv.2.map (fun pt => (pt.2 : ℝ))) p with
          | .error e => .error e
          | .ok d => .ok (ckv.1, round4 d)) cd

/-! ## Lemmas for C1/C2 -/

lemma zipPow_nonneg (p : ℝ) :
    ∀ x1 x2 : List ℝ, 0 ≤ (List.zipWith (fun a b => |a - b| ^ p) x1 x2).sum := by
  intro x1
  induction x1 with
  | nil => intro x2; simp
  | cons a t ih =>
    intro x2
    cases x2 with
    | nil => simp
    | cons b t2 =>
      simp only [List.zipWith_cons_cons, List.sum_cons]
      have h1 : (0 : ℝ) ≤ |a - b| ^ p := Real.rpow_nonneg (abs_nonneg _) p
      have h2 := ih t2
      linarith

lemma rpow_abs_eq_zero_iff (a b p : ℝ) (hp : 0 < p) : |a - b| ^ p = 0 ↔ a = b := by
  constructor
  · intro h
    by_contra hne
    have habs : 0 < |a - b| := abs_pos.mpr (sub_ne_zero.mpr hne)
    have := Real.rpow_pos_of_pos habs p
    linarith
  · intro h
    subst h
    simp [Real.zero_rpow (ne_of_gt hp)]

lemma zipPow_eq_zero_iff (p : ℝ) (hp : 0 < p) :
    ∀ x1 x2 : List ℝ, x1.length = x2.length →
      ((List.zipWith (fun a b => |a - b| ^ p) x1 x2).sum = 0 ↔ x1 = x2) := by
  intro x1
  induction x1 with
  | nil =>
    intro x2 hlen
    cases x2 with
    | nil => simp
    | cons b t2 => simp at hlen
  | cons a t ih =>
    intro x2 hlen
    cases x2 with
    | nil => simp at hlen
    | cons b t2 =>
      simp only [List.length_cons, Nat.succ.injEq] at hlen
      simp only [List.zipWith_cons_cons, List.sum_cons]
      have h1 : (0 : ℝ) ≤ |a - b| ^ p := Real.rpow_nonneg (abs_nonneg _) p
      have h2 := zipPow_nonneg p t t2
      rw [add_eq_zero_iff_of_nonneg h1 h2, rpow_abs_eq_zero_iff a b p hp, ih t2 hlen]
      simp

/-! ## C1 and C2 -/

/-- C1: for equal-length real sequences and exponent `p > 0`,
`minkowski_distance` succeeds with a value `d ≥ 0`, and `d = 0` iff the two
sequences are elementwise equal. -/
theorem minkowski_distance_nonneg_zero_iff (x1 x2 : List ℝ) (p : ℝ)
    (hlen : x1.length = x2.length) (hp : 0 < p) :
    ∃ d, minkowski_distance x1 x2 p = .ok d ∧ 0 ≤ d ∧ (d = 0 ↔ x1 = x2) := by
  refine ⟨(List.zipWith (fun a b => |a - b| ^ p) x1 x2).sum ^ ((1 : ℝ) / p), ?_, ?_, ?_⟩
  · rw [minkowski_distance, if_neg (by simp [hlen])]
  · exact Real.rpow_nonneg (zipPow_nonneg p x1 x2) _
  · set S := (List.zipWith (fun a b => |a - b| ^ p) x1 x2).sum with hS
    have hSnn : 0 ≤ S := zipPow_nonneg p x1 x2
    have hiff := zipPow_eq_zero_iff p hp x1 x2 hlen
    constructor
    · intro h0
      rw [← hiff]
      by_contra hne
      have hpos : 0 < S := lt_of_le_of_ne hSnn (fun h => hne (by rw [← hS, ← h]))
      have := Real.rpow_pos_of_pos hpos ((1 : ℝ) / p)
      rw [h0] at this
      exact lt_irrefl 0 this
    · intro h
      rw [← hiff] at h
      rw [hS, h, Real.zero_rpow (by positivity)]

/-- C1 witness: instantiated at `x1 = [1]`, `x2 = [1]`, `p = 1`. -/
theorem minkowski_distance_nonneg_zero_iff_witness :
    List.length [(1 : ℝ)] = List.length [(1 : ℝ)] ∧ (0 : ℝ) < 1 ∧
      ∃ d, minkowski_distance [(1 : ℝ)] [(1 : ℝ)] 1 = .ok d ∧ 0 ≤ d ∧
        (d = 0 ↔ [(1 : ℝ)] = [(1 : ℝ)]) :=
  ⟨rfl, by norm_num,
    minkowski_distance_nonneg_zero_iff [(1 : ℝ)] [(1 : ℝ)] 1 rfl (by norm_num)⟩

/-- C2: when the two sequences have different lengths, `minkowski_distance`
raises the dimension-mismatch `ValueError` and produces no result. -/
theorem minkowski_distance_dim_mismatch (x1 x2 : List ℝ) (p : ℝ)
    (h : x1.length ≠ x2.length) :
    minkowski_distance x1 x2 p = .error .dimensionMismatch := by
  rw [minkowski_distance, if_pos h]

/-- C2 witness: instantiated at `x1 = [1]`, `x2 = []`, `p = 3`. -/
theorem minkowski_distance_dim_mismatch_witness :
    List.length [(1 : ℝ)] ≠ List.length ([] : List ℝ) ∧
      minkowski_distance [(1 : ℝ)] [] 3 = .error .dimensionMismatch :=
  ⟨by decide, minkowski_distance_dim_mismatch [(1 : ℝ)] [] 3 (by decide)⟩

/-! ## Significance Engine -/

/-- Python float division `a / b`: raises `ZeroDivisionError` when `b == 0`. -/
noncomputable def pydiv (a b : ℝ) : Except PyErr ℝ :=
  if b = 0 then .error .zeroDivisionError else .ok (a / b)

/-- One iteration of the row loop of `calculate_t_test` (adm.py lines 73-90):
look up the country cell, then try to `float(...)` the two profit cells.
`.ok none` models the `except ValueError: continue` skip; out-of-range
subscripts raise `IndexError`, which the `except ValueError` clause does not
catch, so they propagate as `.error`.  The 2020 cell is evaluated first, as
in the source, so a 2020 parse failure skips the row before the 2021 cell is
touched. -/
def tRow (header : List String) (p20i p21i : Nat) (row : Row) :
    Except PyErr (Option (String × ℚ × ℚ)) :=
  match headerIdx header "country" with
  | none => .error .valueError
  | some ci =>
    match row.get? ci with
    | none => .error .indexError
    | some c =>
      match row.get? p20i with
      | none => .error .indexError
      | some c20 =>
        match c20.asFloat with
        | none => .ok none
        | some a =>
          match row.get? p21i with
          | none => .error .indexError
          | some c21 =>
            match c21.asFloat with
            | none => .ok none
            | some b => .ok (some (c.raw, a, b))

/-- The grouping state of `calculate_t_test`: the two insertion-ordered
dicts `profits_2020` and `profits_2021`. -/
abbrev TState := List (String × List ℚ) × List (String × List ℚ)

/-- Append one surviving row's pair of profits to both dicts, in lockstep. -/
def push2 (st : TState) (k : String) (a b : ℚ) : TState :=
  (appendAt st.1 k a, appendAt st.2 k b)

/-- The row loop of `calculate_t_test`: skipped rows leave the state
unchanged, surviving rows append to both dicts. -/
def buildT (header : List String) (p20i p21i : Nat) : List Row → TState → Except PyErr TState
  | [], st => .ok st
  | row :: rest, st =>
    match tRow header p20i p21i row with
    | .error e => .error e
    | .ok none => buildT header p20i p21i rest st
    | .ok (some (k, a, b)) => buildT header p20i p21i rest (push2 st k a b)

/-- The paired sample of group `k`: the (2020, 2021) profit pairs of the rows
of country `k` on which both profit cells parse, in row order.  Used to state
that the two dicts are populated in lockstep from the same source rows. -/
def survivors (header : List String) (p20i p21i : Nat) (rows : List Row) (k : String) :
    List (ℚ × ℚ) :=
  rows.filterMap (fun row =>
    match tRow header p20i p21i row with
    | .ok (some (c, a, b)) => if c = k then some (a, b) else none
    | _ => none)

/-- `sum(xs)` of a list of parsed floats, as a real number. -/
def listSumR (xs : List ℚ) : ℝ := (xs.map (fun q => (q : ℝ))).sum

/-- `sum([(x - mean) ** 2 for x in xs])`. -/
def sqSumR (xs : List ℚ) (mean : ℝ) : ℝ := (xs.map (fun q => ((q : ℝ) - mean) ^ 2)).sum

/-- The per-group statistic of `calculate_t_test` (adm.py lines 94-112):
for the group of `kxs`, fetch the 2021 list (a missing key would be a Python
`KeyError`), compute the two means, the two `n-1`-denominator standard
deviations, and the Welch t-statistic, rounding to 4 decimals.  Every
division goes through `pydiv`, as Python raises `ZeroDivisionError`. -/
noncomputable def scoreEntry (d21 : List (String × List ℚ)) (kxs : String × List ℚ) :
    Except PyErr (String × ℝ) :=
  match List.lookup kxs.1 d21 with
  | none => .error .keyError
  | some ys =>
    let xs := kxs.2
    let n1 : ℝ := xs.length
    let n2 : ℝ := ys.length
    (pydiv (listSumR xs) n1).bind fun mean20 =>
    (pydiv (listSumR ys) n2).bind fun mean21 =>
    (pydiv (sqSumR xs mean20) (n1 - 1)).bind fun var20 =>
    (pydiv (sqSumR ys mean21) (n2 - 1)).bind fun var21 =>
    (pydiv (mean20 - mean21)
        (Real.sqrt (Real.sqrt var20 ^ 2 / n1 + Real.sqrt var21 ^ 2 / n2))).bind fun t =>
    .ok (kxs.1, round4 t)

/-- `calculate_t_test(filename)` (adm.py lines 62-114) after the file has
been read and split: locate the two profit columns, build the two paired
dicts tolerating malformed rows, then score each group of `profits_2020`
in insertion order. -/
noncomputable def calculate_t_test (header : List String) (rows : List Row) :
    Except PyErr (List (String × ℝ)) :=
  match headerIdx header "profits in 2020(million)" with
  | none => .error .valueError
  | some p20i =>
    match headerIdx header "profits in 2021(million)" with
    | none => .error .valueError
    | some p21i =>
      match buildT header p20i p21i rows ([], []) with
      | .error e => .error e
      | .ok st => exMapM (scoreEntry st.2) st.1

/-! ## Result Combiner -/

/-- `combine_t_test_and_minkowski(filename, p=3)` (adm.py lines 117-127):
run both engines on the same input, then for each country of the t-test
result, in order, emit `[t, distance]` when the country also appears in the
Minkowski result; other countries are dropped silently. -/
noncomputable def combine_t_test_and_minkowski (header : List String) (rows : List Row)
    (p : ℝ) : Except PyErr (List (String × ℝ × ℝ)) :=
  match calculate_t_test header rows with
  | .error e => .error e
  | .ok t =>
    match calculate_minkowski_distances header rows p with
    | .error e => .error e
    | .ok m =>
      .ok (t.filterMap (fun kv => (List.lookup kv.1 m).map (fun d => (kv.1, kv.2, d))))

/-! ## Association-list (Python dict) lemmas -/

/-- `d.get(k, [])`: the list stored under `k`, or `[]`. -/
def dictVals {α : Type} (m : List (String × List α)) (k : String) : List α :=
  (List.lookup k m).getD []

lemma lookup_appendAt_self {α : Type} :
    ∀ (m : List (String × List α)) (k : String) (v : α),
      List.lookup k (appendAt m k v) = some (dictVals m k ++ [v]) := by
  intro m
  induction m with
  | nil => intro k v; simp [appendAt, upsert, dictVals]
  | cons e rest ih =>
    intro k v
    obtain ⟨k', vs⟩ := e
    by_cases h : k' = k
    · subst h
      simp [appendAt, upsert, dictVals, List.lookup]
    · have hne : (k == k') = false := by
        simp [Ne.symm h]
      simp only [appendAt, upsert, if_neg h, List.lookup, hne]
      simpa [appendAt, dictVals, List.lookup, hne] using ih k v

lemma lookup_appendAt_ne {α : Type} :
    ∀ (m : List (String × List α)) (k k' : String) (v : α), k' ≠ k →
      List.lookup k' (appendAt m k v) = List.lookup k' m := by
  intro m
  induction m with
  | nil =>
    intro k k' v h
    have hbe : (k' == k) = false := beq_eq_false_iff_ne.mpr h
    simp [appendAt, upsert, List.lookup, hbe]
  | cons e rest ih =>
    intro k k' v h
    obtain ⟨k0, vs⟩ := e
    by_cases h0 : k0 = k
    · subst h0
      have hbe : (k' == k0) = false := beq_eq_false_iff_ne.mpr h
      simp [appendAt, upsert, List.lookup, hbe]
    · simp only [appendAt, upsert, if_neg h0, List.lookup]
      cases hbe : (k' == k0) with
      | true => rfl
      | false => simpa [appendAt] using ih k k' v h

lemma map_fst_appendAt {α : Type} :
    ∀ (m : List (String × List α)) (k : String) (v : α),
      (appendAt m k v).map Prod.fst =
        if k ∈ m.map Prod.fst then m.map Prod.fst else m.map Prod.fst ++ [k] := by
  intro m
  induction m with
  | nil => intro k v; simp [appendAt, upsert]
  | cons e rest ih =>
    intro k v
    obtain ⟨k0, vs⟩ := e
    by_cases h0 : k0 = k
    · subst h0
      simp [appendAt, upsert]
    · by_cases hm : k ∈ rest.map Prod.fst
      · simp only [appendAt, upsert, if_neg h0, List.map_cons]
        have hc : k ∈ k0 :: rest.map Prod.fst := List.mem_cons_of_mem _ hm
        rw [if_pos hc]
        have hih := ih k v
        rw [if_pos hm] at hih
        simp only [appendAt] at hih
        rw [hih]
      · simp only [appendAt, upsert, if_neg h0, List.map_cons]
        have hc : k ∉ k0 :: rest.map Prod.fst := by
          simp [Ne.symm h0, hm]
        rw [if_neg hc]
        have hih := ih k v
        rw [if_neg hm] at hih
        simp only [appendAt] at hih
        rw [hih]
        simp

lemma appendAt_keeps_nonempty {α : Type} :
    ∀ (m : List (String × List α)) (k : String) (v : α),
      (∀ e ∈ m, e.2 ≠ ([] : List α)) → ∀ e ∈ appendAt m k v, e.2 ≠ ([] : List α) := by
  intro m
  induction m with
  | nil =>
    intro k v _ e he
    simp [appendAt, upsert] at he
    subst he
    simp
  | cons e0 rest ih =>
    intro k v hm e he
    obtain ⟨k0, vs⟩ := e0
    by_cases h0 : k0 = k
    · subst h0
      simp only [appendAt, upsert, if_pos rfl] at he
      rcases List.mem_cons.mp he with h | h
      · subst h; simp
      · exact hm e (List.mem_cons_of_mem _ h)
    · simp only [appendAt, upsert, if_neg h0] at he
      rcases List.mem_cons.mp he with h | h
      · subst h
        exact hm _ (List.mem_cons_self _ _)
      · exact ih k v (fun e' he' => hm e' (List.mem_cons_of_mem _ he')) e h

lemma nodup_map_fst_appendAt {α : Type} (m : List (String × List α)) (k : String) (v : α)
    (h : (m.map Prod.fst).Nodup) : ((appendAt m k v).map Prod.fst).Nodup := by
  rw [map_fst_appendAt]
  by_cases hm : k ∈ m.map Prod.fst
  · rwa [if_pos hm]
  · rw [if_neg hm]
    simp [List.nodup_append, h, hm]

lemma lookup_mem {α : Type} :
    ∀ (m : List (String × α)) (k : String) (v : α),
      List.lookup k m = some v → (k, v) ∈ m := by
  intro m
  induction m with
  | nil => intro k v h; simp [List.lookup] at h
  | cons e rest ih =>
    intro k v h
    obtain ⟨k0, v0⟩ := e
    rw [List.lookup] at h
    cases hbe : (k == k0) with
    | true =>
      rw [hbe] at h
      simp only [Option.some.injEq] at h
      have : k = k0 := by simpa using hbe
      subst this
      subst h
      exact List.mem_cons_self _ _
    | false =>
      rw [hbe] at h
      exact List.mem_cons_of_mem _ (ih k v h)

lemma mem_keys_lookup {α : Type} :
    ∀ (m : List (String × α)) (k : String), k ∈ m.map Prod.fst →
      ∃ v, List.lookup k m = some v := by
  intro m
  induction m with
  | nil => intro k h; simp at h
  | cons e rest ih =>
    intro k h
    obtain ⟨k0, v0⟩ := e
    by_cases h0 : k = k0
    · subst h0
      exact ⟨v0, by simp [List.lookup]⟩
    · have hmem : k ∈ rest.map Prod.fst := by
        simpa [h0] using h
      obtain ⟨v, hv⟩ := ih k hmem
      have hbe : (k == k0) = false := beq_eq_false_iff_ne.mpr h0
      exact ⟨v, by simp [List.lookup, hbe, hv]⟩

lemma lookup_eq_none_iff {α : Type} :
    ∀ (m : List (String × α)) (k : String),
      List.lookup k m = none ↔ k ∉ m.map Prod.fst := by
  intro m
  induction m with
  | nil => intro k; simp [List.lookup]
  | cons e rest ih =>
    intro k
    obtain ⟨k0, v0⟩ := e
    by_cases h0 : k = k0
    · subst h0
      simp [List.lookup]
    · have hbe : (k == k0) = false := beq_eq_false_iff_ne.mpr h0
      simp only [List.lookup, hbe]
      rw [ih k]
      simp [h0]

lemma lookup_of_mem_nodup {α : Type} :
    ∀ (m : List (String × α)) (k : String) (v : α),
      (m.map Prod.fst).Nodup → (k, v) ∈ m → List.lookup k m = some v := by
  intro m
  induction m with
  | nil => intro k v _ h; simp at h
  | cons e rest ih =>
    intro k v hnd h
    obtain ⟨k0, v0⟩ := e
    rcases List.mem_cons.mp h with h1 | h1
    · rw [Prod.mk.injEq] at h1
      obtain ⟨rfl, rfl⟩ := h1
      simp [List.lookup]
    · have hk0 : k ≠ k0 := by
        intro hc
        subst hc
        have : k ∈ rest.map Prod.fst := List.mem_map_of_mem Prod.fst h1
        simp only [List.map_cons, List.nodup_cons] at hnd
        exact hnd.1 this
      have hlk := ih k v (by simp only [List.map_cons, List.nodup_cons] at hnd; exact hnd.2) h1
      have hbe : (k == k0) = false := beq_eq_false_iff_ne.mpr hk0
      simp [List.lookup, hbe, hlk]

lemma zip_map_fst_snd {α β : Type} :
    ∀ l : List (α × β), (l.map Prod.fst).zip (l.map Prod.snd) = l := by
  intro l
  induction l with
  | nil => rfl
  | cons a t ih => simpa using ih

/-! ## exMapM lemmas -/

lemma exMapM_ok_of_all {α β : Type} (f : α → Except PyErr β) :
    ∀ l : List α, (∀ a ∈ l, ∃ b, f a = .ok b) → ∃ bs, exMapM f l = .ok bs := by
  intro l
  induction l with
  | nil => intro _; exact ⟨[], rfl⟩
  | cons a t ih =>
    intro h
    obtain ⟨b, hb⟩ := h a (List.mem_cons_self _ _)
    obtain ⟨bs, hbs⟩ := ih (fun x hx => h x (List.mem_cons_of_mem _ hx))
    exact ⟨b :: bs, by rw [exMapM, hb, hbs]⟩

lemma exMapM_error_of {α β : Type} (f : α → Except PyErr β) (E : PyErr) :
    ∀ l : List α, (∀ a ∈ l, f a = .error E ∨ ∃ b, f a = .ok b) →
      (∃ a ∈ l, f a = .error E) → exMapM f l = .error E := by
  intro l
  induction l with
  | nil => intro _ h; simp at h
  | cons a t ih =>
    intro hall ⟨w, hw, hwe⟩
    rcases hall a (List.mem_cons_self _ _) with ha | ⟨b, hb⟩
    · rw [exMapM, ha]
    · have hwt : w ∈ t := by
        rcases List.mem_cons.mp hw with h | h
        · subst h; rw [hwe] at hb; cases hb
        · exact h
      have := ih (fun x hx => hall x (List.mem_cons_of_mem _ hx)) ⟨w, hwt, hwe⟩
      rw [exMapM, hb, this]

/-! ## pydiv lemmas -/

lemma pydiv_ok (a b : ℝ) (h : b ≠ 0) : pydiv a b = .ok (a / b) := by
  simp [pydiv, h]

lemma pydiv_zero (a : ℝ) : pydiv a 0 = .error .zeroDivisionError := by
  simp [pydiv]

lemma pydiv_cases (a b : ℝ) :
    pydiv a b = .error .zeroDivisionError ∨ pydiv a b = .ok (a / b) := by
  by_cases h : b = 0
  · subst h; exact Or.inl (pydiv_zero a)
  · exact Or.inr (pydiv_ok a b h)

/-! ## buildT structure lemmas -/

lemma buildT_vals (header : List String) (p20i p21i : Nat) :
    ∀ (rows : List Row) (st fin : TState),
      buildT header p20i p21i rows st = .ok fin →
      ∀ k, dictVals fin.1 k =
              dictVals st.1 k ++ (survivors header p20i p21i rows k).map Prod.fst ∧
           dictVals fin.2 k =
              dictVals st.2 k ++ (survivors header p20i p21i rows k).map Prod.snd := by
  intro rows
  induction rows with
  | nil =>
    intro st fin hb k
    simp only [buildT] at hb
    obtain rfl : st = fin := by simpa using hb
    simp [survivors]
  | cons row rest ih =>
    intro st fin hb k
    simp only [buildT] at hb
    cases htr : tRow header p20i p21i row with
    | error e =>
      simp only [htr] at hb
      exact Except.noConfusion hb
    | ok o =>
      cases o with
      | none =>
        simp only [htr] at hb
        have h := ih st fin hb k
        simp only [survivors, List.filterMap_cons, htr] at h ⊢
        exact h
      | some trip =>
        obtain ⟨c, a, b⟩ := trip
        simp only [htr] at hb
        have h := ih (push2 st c a b) fin hb k
        simp only [survivors, List.filterMap_cons, htr] at h ⊢
        by_cases hck : c = k
        · subst hck
          rw [if_pos rfl]
          have h1 : dictVals (push2 st c a b).1 c = dictVals st.1 c ++ [a] := by
            simp [push2, dictVals, lookup_appendAt_self]
          have h2 : dictVals (push2 st c a b).2 c = dictVals st.2 c ++ [b] := by
            simp [push2, dictVals, lookup_appendAt_self]
          rw [h1, h2] at h
          simpa [List.append_assoc] using h
        · rw [if_neg hck]
          have h1 : dictVals (push2 st c a b).1 k = dictVals st.1 k := by
            simp [push2, dictVals, lookup_appendAt_ne _ _ _ _ (Ne.symm hck)]
          have h2 : dictVals (push2 st c a b).2 k = dictVals st.2 k := by
            simp [push2, dictVals, lookup_appendAt_ne _ _ _ _ (Ne.symm hck)]
          rw [h1, h2] at h
          exact h

lemma buildT_keys (header : List String) (p20i p21i : Nat) :
    ∀ (rows : List Row) (st fin : TState),
      buildT header p20i p21i rows st = .ok fin →
      st.1.map Prod.fst = st.2.map Prod.fst →
      fin.1.map Prod.fst = fin.2.map Prod.fst := by
  intro rows
  induction rows with
  | nil =>
    intro st fin hb h
    simp only [buildT] at hb
    obtain rfl : st = fin := by simpa using hb
    exact h
  | cons row rest ih =>
    intro st fin hb h
    simp only [buildT] at hb
    cases htr : tRow header p20i p21i row with
    | error e =>
      simp only [htr] at hb
      exact Except.noConfusion hb
    | ok o =>
      cases o with
      | none =>
        simp only [htr] at hb
        exact ih st fin hb h
      | some trip =>
        obtain ⟨c, a, b⟩ := trip
        simp only [htr] at hb
        refine ih (push2 st c a b) fin hb ?_
        simp only [push2, map_fst_appendAt, h]

lemma buildT_nodup (header : List String) (p20i p21i : Nat) :
    ∀ (rows : List Row) (st fin : TState),
      buildT header p20i p21i rows st = .ok fin →
      (st.1.map Prod.fst).Nodup → (fin.1.map Prod.fst).Nodup := by
  intro rows
  induction rows with
  | nil =>
    intro st fin hb h
    simp only [buildT] at hb
    obtain rfl : st = fin := by simpa using hb
    exact h
  | cons row rest ih =>
    intro st fin hb h
    simp only [buildT] at hb
    cases htr : tRow header p20i p21i row with
    | error e =>
      simp only [htr] at hb
      exact Except.noConfusion hb
    | ok o =>
      cases o with
      | none =>
        simp only [htr] at hb
        exact ih st fin hb h
      | some trip =>
        obtain ⟨c, a, b⟩ := trip
        simp only [htr] at hb
        exact ih (push2 st c a b) fin hb (nodup_map_fst_appendAt _ _ _ h)

/-- Packaged invariants of the grouping phase of `calculate_t_test`, started
from the empty pair of dicts. -/
lemma buildT_final (header : List String) (p20i p21i : Nat) (rows : List Row)
    (d20 d21 : List (String × List ℚ))
    (hb : buildT header p20i p21i rows ([], []) = .ok (d20, d21)) :
    d20.map Prod.fst = d21.map Prod.fst ∧
    (d20.map Prod.fst).Nodup ∧
    (∀ k, dictVals d20 k = (survivors header p20i p21i rows k).map Prod.fst) ∧
    (∀ k, dictVals d21 k = (survivors header p20i p21i rows k).map Prod.snd) := by
  refine ⟨buildT_keys header p20i p21i rows ([], []) (d20, d21) hb rfl,
    buildT_nodup header p20i p21i rows ([], []) (d20, d21) hb (by simp), ?_, ?_⟩
  · intro k
    have := (buildT_vals header p20i p21i rows ([], []) (d20, d21) hb k).1
    simpa [dictVals, List.lookup] using this
  · intro k
    have := (buildT_vals header p20i p21i rows ([], []) (d20, d21) hb k).2
    simpa [dictVals, List.lookup] using this

/-! ## C4 -/

/-- C4: the grouping phase of `calculate_t_test` populates the 2020 and 2021
dicts in lockstep: they have the same keys (in the same order), and for every
group the two sequences have equal length and zip to exactly the pairs
contributed by that group's surviving source rows (rows on which both profit
cells parse), in row order. -/
theorem t_test_lockstep (header : List String) (rows : List Row) (p20i p21i : Nat)
    (d20 d21 : List (String × List ℚ))
    (hb : buildT header p20i p21i rows ([], []) = .ok (d20, d21)) :
    d20.map Prod.fst = d21.map Prod.fst ∧
    ∀ k xs ys, List.lookup k d20 = some xs → List.lookup k d21 = some ys →
      xs.length = ys.length ∧ xs.zip ys = survivors header p20i p21i rows k := by
  obtain ⟨hkeys, _, h20, h21⟩ := buildT_final header p20i p21i rows d20 d21 hb
  refine ⟨hkeys, ?_⟩
  intro k xs ys hx hy
  have hxv : xs = (survivors header p20i p21i rows k).map Prod.fst := by
    rw [← h20 k]; simp [dictVals, hx]
  have hyv : ys = (survivors header p20i p21i rows k).map Prod.snd := by
    rw [← h21 k]; simp [dictVals, hy]
  subst hxv hyv
  exact ⟨by simp, zip_map_fst_snd _⟩

/-- The five-column header of the input table. -/
def hdr5 : List String :=
  ["country", "number of employees", "median Salary",
   "profits in 2020(million)", "profits in 2021(million)"]

/-- A fully parseable row of country A. -/
def rowA1 : Row :=
  [strCell "A", intCell "10" 10, floatCell "100.0" 100, floatCell "1.0" 1, floatCell "2.0" 2]

/-- A row of country A whose 2020 profit cell does not parse. -/
def rowA2 : Row :=
  [strCell "A", intCell "20" 20, floatCell "200.0" 200, strCell "n/a", floatCell "9.0" 9]

/-- A fully parseable row of country B. -/
def rowB1 : Row :=
  [strCell "B", intCell "30" 30, floatCell "300.0" 300, floatCell "3.0" 3, floatCell "4.0" 4]

/-- Three rows, the middle one malformed. -/
def rowsW : List Row := [rowA1, rowA2, rowB1]

/-- C4 witness: on `rowsW` (whose middle row has an unparseable 2020 profit)
the two dicts agree on keys, and group A's samples zip to the single
surviving pair (1, 2). -/
theorem t_test_lockstep_witness :
    ([("A", [(1 : ℚ)]), ("B", [3])].map Prod.fst
        = [("A", [(2 : ℚ)]), ("B", [4])].map Prod.fst) ∧
    [(1 : ℚ)].length = [(2 : ℚ)].length ∧
    [(1 : ℚ)].zip [(2 : ℚ)] = survivors hdr5 3 4 rowsW "A" := by
  have h := t_test_lockstep hdr5 rowsW 3 4
    [("A", [(1 : ℚ)]), ("B", [3])] [("A", [(2 : ℚ)]), ("B", [4])] rfl
  exact ⟨h.1, h.2 "A" [1] [2] rfl rfl⟩

/-! ## scoreEntry lemmas and C3 -/

lemma bind_pydiv_ok_or_zero {β : Type} (a b : ℝ) (g : ℝ → Except PyErr β)
    (hg : ∀ x, g x = .error .zeroDivisionError ∨ ∃ v, g x = .ok v) :
    (pydiv a b).bind g = .error .zeroDivisionError ∨ ∃ v, (pydiv a b).bind g = .ok v := by
  rcases pydiv_cases a b with h | h
  · rw [h]; exact Or.inl rfl
  · rw [h]; exact hg (a / b)

/-- When the 2021 dict has the entry's key, the only error `scoreEntry` can
produce is `ZeroDivisionError` (from one of its divisions). -/
lemma scoreEntry_ok_or_zero (d21 : List (String × List ℚ)) (e : String × List ℚ)
    (ys : List ℚ) (hys : List.lookup e.1 d21 = some ys) :
    scoreEntry d21 e = .error .zeroDivisionError ∨ ∃ v, scoreEntry d21 e = .ok v := by
  simp only [scoreEntry, hys]
  apply bind_pydiv_ok_or_zero; intro mean20
  apply bind_pydiv_ok_or_zero; intro mean21
  apply bind_pydiv_ok_or_zero; intro var20
  apply bind_pydiv_ok_or_zero; intro var21
  apply bind_pydiv_ok_or_zero; intro t
  exact Or.inr ⟨_, rfl⟩

/-- A group with exactly one observation makes `scoreEntry` divide by
`n1 - 1 = 0` (or fail even earlier on an empty 2021 list): the Python
`ZeroDivisionError` of the sample-variance computation. -/
lemma scoreEntry_singleton_zero (d21 : List (String × List ℚ)) (k : String)
    (xs ys : List ℚ) (hys : List.lookup k d21 = some ys) (hxs : xs.length = 1) :
    scoreEntry d21 (k, xs) = .error .zeroDivisionError := by
  obtain ⟨x, rfl⟩ := List.length_eq_one.mp hxs
  simp only [scoreEntry, hys, List.length_singleton, Nat.cast_one]
  rw [pydiv_ok _ _ one_ne_zero]
  simp only [Except.bind]
  by_cases hy : ((ys.length : ℕ) : ℝ) = 0
  · rw [hy, pydiv_zero]
  · rw [pydiv_ok _ _ hy]
    simp only [Except.bind]
    rw [show (1 : ℝ) - 1 = 0 from by norm_num, pydiv_zero]

/-- C3: if any group ends up with exactly one successfully parsed
observation, `calculate_t_test` aborts with `ZeroDivisionError` (the
`n − 1 = 0` variance denominator) instead of producing scores. -/
theorem t_test_single_observation_divzero (header : List String) (rows : List Row)
    (p20i p21i : Nat) (d20 d21 : List (String × List ℚ)) (k : String) (xs : List ℚ)
    (hh20 : headerIdx header "profits in 2020(million)" = some p20i)
    (hh21 : headerIdx header "profits in 2021(million)" = some p21i)
    (hb : buildT header p20i p21i rows ([], []) = .ok (d20, d21))
    (hk : List.lookup k d20 = some xs) (hxs : xs.length = 1) :
    calculate_t_test header rows = .error .zeroDivisionError := by
  obtain ⟨hkeys, _, _, _⟩ := buildT_final header p20i p21i rows d20 d21 hb
  simp only [calculate_t_test, hh20, hh21, hb]
  apply exMapM_error_of
  · intro e he
    have hkm : e.1 ∈ d21.map Prod.fst := by
      rw [← hkeys]; exact List.mem_map_of_mem Prod.fst he
    obtain ⟨ys, hys⟩ := mem_keys_lookup d21 e.1 hkm
    exact scoreEntry_ok_or_zero d21 e ys hys
  · refine ⟨(k, xs), lookup_mem d20 k xs hk, ?_⟩
    have hkm : k ∈ d21.map Prod.fst := by
      rw [← hkeys]
      exact List.mem_map_of_mem Prod.fst (lookup_mem d20 k xs hk)
    obtain ⟨ys, hys⟩ := mem_keys_lookup d21 k hkm
    exact scoreEntry_singleton_zero d21 k xs ys hys hxs

/-- C3 witness: a single row for country B gives group B one observation and
the whole call fails with `ZeroDivisionError`. -/
theorem t_test_single_observation_divzero_witness :
    calculate_t_test hdr5 [rowB1] = .error .zeroDivisionError :=
  t_test_single_observation_divzero hdr5 [rowB1] 3 4
    [("B", [(3 : ℚ)])] [("B", [(4 : ℚ)])] "B" [(3 : ℚ)] rfl rfl rfl rfl rfl

/-! ## C5: the Result Combiner's inner join -/

lemma combine_eq (header : List String) (rows : List Row) (p : ℝ)
    (td md : List (String × ℝ))
    (h1 : calculate_t_test header rows = .ok td)
    (h2 : calculate_minkowski_distances header rows p = .ok md) :
    combine_t_test_and_minkowski header rows p =
      .ok (td.filterMap (fun kv => (List.lookup kv.1 md).map (fun d => (kv.1, kv.2, d)))) := by
  simp only [combine_t_test_and_minkowski, h1, h2]

lemma join_map_fst (md : List (String × ℝ)) :
    ∀ td : List (String × ℝ),
      (td.filterMap (fun kv => (List.lookup kv.1 md).map (fun d => (kv.1, kv.2, d)))).map
          Prod.fst
        = (td.map Prod.fst).filter (fun k => decide (k ∈ md.map Prod.fst)) := by
  intro td
  induction td with
  | nil => rfl
  | cons kv t ih =>
    cases hlk : List.lookup kv.1 md with
    | none =>
      have hnm : kv.1 ∉ md.map Prod.fst := (lookup_eq_none_iff md kv.1).mp hlk
      simp [List.filterMap_cons, hlk, List.filter_cons, hnm, ih]
    | some d =>
      have hm : kv.1 ∈ md.map Prod.fst :=
        List.mem_map.mpr ⟨(kv.1, d), lookup_mem md kv.1 d hlk, rfl⟩
      simp [List.filterMap_cons, hlk, List.filter_cons, hm, ih]

lemma join_mem (md td : List (String × ℝ)) (k : String) (tv dv : ℝ)
    (h : (k, tv, dv) ∈
        td.filterMap (fun kv => (List.lookup kv.1 md).map (fun d => (kv.1, kv.2, d)))) :
    (k, tv) ∈ td ∧ (k, dv) ∈ md := by
  rw [List.mem_filterMap] at h
  obtain ⟨kv, hkv, hmap⟩ := h
  obtain ⟨kk, vv⟩ := kv
  cases hlk : List.lookup kk md with
  | none =>
    rw [hlk] at hmap
    cases hmap
  | some d =>
    rw [hlk] at hmap
    simp only [Option.map_some', Option.some.injEq, Prod.mk.injEq] at hmap
    obtain ⟨rfl, rfl, rfl⟩ := hmap
    exact ⟨hkv, lookup_mem md kk d hlk⟩

/-- C5: when both engines succeed, the combiner succeeds and its output keys
are exactly the t-test keys that also appear in the Minkowski result, in
t-test order (the inner join on group key); each emitted key carries the pair
(its t-statistic, its distance); keys present in only one result are
dropped without error. -/
theorem combine_inner_join (header : List String) (rows : List Row) (p : ℝ)
    (td md : List (String × ℝ)) (out : List (String × ℝ × ℝ))
    (h1 : calculate_t_test header rows = .ok td)
    (h2 : calculate_minkowski_distances header rows p = .ok md)
    (h3 : combine_t_test_and_minkowski header rows p = .ok out) :
    out.map Prod.fst = (td.map Prod.fst).filter (fun k => decide (k ∈ md.map Prod.fst)) ∧
    (∀ k, k ∈ out.map Prod.fst ↔ k ∈ td.map Prod.fst ∧ k ∈ md.map Prod.fst) ∧
    (∀ k tv dv, (k, tv, dv) ∈ out → (k, tv) ∈ td ∧ (k, dv) ∈ md) := by
  have hco := combine_eq header rows p td md h1 h2
  rw [h3] at hco
  obtain rfl : out =
      td.filterMap (fun kv => (List.lookup kv.1 md).map (fun d => (kv.1, kv.2, d))) := by
    injection hco
  refine ⟨join_map_fst md td, ?_, fun k tv dv h => join_mem md td k tv dv h⟩
  intro k
  rw [join_map_fst md td, List.mem_filter]
  simp

/-! ## Rounding of integer values -/

lemma pyround_intCast (n : ℤ) : pyround ((n : ℝ)) = n := by
  simp only [pyround, Int.floor_intCast, sub_self]
  rw [if_pos (by norm_num : (0 : ℝ) < 1 / 2)]

lemma round4_intCast (n : ℤ) : round4 ((n : ℝ)) = n := by
  rw [round4]
  have h : ((n : ℝ) * 10000) = ((n * 10000 : ℤ) : ℝ) := by push_cast; ring
  rw [h, pyround_intCast]
  push_cast
  field_simp

lemma round4_one : round4 (1 : ℝ) = 1 := by simpa using round4_intCast 1

lemma round4_ninety : round4 (90 : ℝ) = 90 := by simpa using round4_intCast 90

/-! ## A concrete input on which both engines succeed -/

/-- Country A, employees 10, salary 100.0, profits 0.0 and 0.0. -/
def rowC5a : Row :=
  [strCell "A", intCell "10" 10, floatCell "100.0" 100, floatCell "0.0" 0, floatCell "0.0" 0]

/-- Country A, employees 10, salary 10.0, profits 2.0 and 0.0. -/
def rowC5b : Row :=
  [strCell "A", intCell "10" 10, floatCell "10.0" 10, floatCell "2.0" 2, floatCell "0.0" 0]

/-- Two fully parseable rows of country A. -/
def rowsC5 : List Row := [rowC5a, rowC5b]

lemma scoreEntry_rowsC5 :
    scoreEntry [("A", [(0 : ℚ), 0])] ("A", [(0 : ℚ), 2]) = .ok ("A", 1) := by
  have hlk : List.lookup "A" [("A", [(0 : ℚ), 0])] = some [0, 0] := rfl
  simp only [scoreEntry, hlk]
  have hsum20 : listSumR [(0 : ℚ), 2] = 2 := by simp [listSumR]
  have hsum21 : listSumR [(0 : ℚ), 0] = 0 := by simp [listSumR]
  have hlen : ((List.length [(0 : ℚ), 2] : ℕ) : ℝ) = 2 := by simp
  have hlen2 : ((List.length [(0 : ℚ), 0] : ℕ) : ℝ) = 2 := by simp
  rw [hsum20, hsum21, hlen, hlen2]
  rw [pydiv_ok 2 2 (by norm_num)]
  simp only [Except.bind]
  rw [pydiv_ok 0 2 (by norm_num)]
  simp only [Except.bind]
  have hsq20 : sqSumR [(0 : ℚ), 2] (2 / 2) = 2 := by
    simp [sqSumR]
    norm_num
  have h21 : (2 : ℝ) - 1 = 1 := by norm_num
  rw [hsq20, h21, pydiv_ok 2 1 one_ne_zero]
  simp only [Except.bind]
  have hsq21 : sqSumR [(0 : ℚ), 0] (0 / 2) = 0 := by
    simp [sqSumR]
  rw [hsq21, pydiv_ok 0 1 one_ne_zero]
  simp only [Except.bind]
  have hden : Real.sqrt (Real.sqrt (2 / 1) ^ 2 / 2 + Real.sqrt (0 / 1) ^ 2 / 2) = 1 := by
    rw [show (2 : ℝ) / 1 = 2 by norm_num, show (0 : ℝ) / 1 = 0 by norm_num,
      Real.sq_sqrt (by norm_num : (0 : ℝ) ≤ 2), Real.sqrt_zero]
    norm_num [Real.sqrt_one]
  rw [hden, pydiv_ok _ 1 one_ne_zero]
  simp only [Except.bind]
  have ht : ((2 : ℝ) / 2 - 0 / 2) / 1 = 1 := by norm_num
  rw [ht, round4_one]

lemma t_test_rowsC5 : calculate_t_test hdr5 rowsC5 = .ok [("A", (1 : ℝ))] := by
  have hb : buildT hdr5 3 4 rowsC5 ([], []) =
      .ok ([("A", [(0 : ℚ), 2])], [("A", [(0 : ℚ), 0])]) := rfl
  simp only [calculate_t_test,
    show headerIdx hdr5 "profits in 2020(million)" = some 3 from rfl,
    show headerIdx hdr5 "profits in 2021(million)" = some 4 from rfl, hb]
  simp only [exMapM, scoreEntry_rowsC5]

lemma mink_rowsC5 : calculate_minkowski_distances hdr5 rowsC5 3 = .ok [("A", (90 : ℝ))] := by
  have hb : buildM hdr5 1 2 rowsC5 [] =
      .ok [("A", [((10 : ℤ), (100 : ℚ)), ((10 : ℤ), (10 : ℚ))])] := rfl
  simp only [calculate_minkowski_distances,
    show headerIdx hdr5 "number of employees" = some 1 from rfl,
    show headerIdx hdr5 "median Salary" = some 2 from rfl, hb]
  have hx1 : ([((10 : ℤ), (100 : ℚ)), ((10 : ℤ), (10 : ℚ))].map (fun pt => ((pt.1 : ℤ) : ℝ)))
      = [10, 10] := by norm_num
  have hx2 : ([((10 : ℤ), (100 : ℚ)), ((10 : ℤ), (10 : ℚ))].map (fun pt => ((pt.2 : ℚ) : ℝ)))
      = [100, 10] := by norm_num
  have hmd : minkowski_distance [(10 : ℝ), 10] [(100 : ℝ), 10] 3 = .ok 90 := by
    rw [minkowski_distance, if_neg (by simp)]
    have h1 : |(10 : ℝ) - 100| ^ (3 : ℝ) = 729000 := by
      rw [show |(10 : ℝ) - 100| = 90 by rw [abs_of_nonpos] <;> norm_num,
        show (3 : ℝ) = ((3 : ℕ) : ℝ) by norm_num, Real.rpow_natCast]
      norm_num
    have h2 : |(10 : ℝ) - 10| ^ (3 : ℝ) = 0 := by
      rw [show |(10 : ℝ) - 10| = 0 by norm_num, Real.zero_rpow (by norm_num)]
    have hsum : (List.zipWith (fun a b => |a - b| ^ (3 : ℝ)) [(10 : ℝ), 10] [(100 : ℝ), 10]).sum
        = 729000 := by
      simp [h1, h2]
    rw [hsum]
    have hroot : (729000 : ℝ) ^ ((1 : ℝ) / 3) = 90 := by
      rw [show (729000 : ℝ) = 90 ^ ((3 : ℕ) : ℝ) by rw [Real.rpow_natCast]; norm_num,
        ← Real.rpow_mul (by norm_num : (0 : ℝ) ≤ 90)]
      norm_num
    rw [hroot]
  simp only [exMapM, hx1, hx2, hmd, round4_ninety]

lemma combine_rowsC5 :
    combine_t_test_and_minkowski hdr5 rowsC5 3 = .ok [("A", ((1 : ℝ), (90 : ℝ)))] := by
  simp only [combine_t_test_and_minkowski, t_test_rowsC5, mink_rowsC5]
  rfl

/-- C5 witness: on `rowsC5` the t-test gives `[("A", 1)]`, the distances give
`[("A", 90)]`, and the combined result is the inner join `[("A", (1, 90))]`. -/
theorem combine_inner_join_witness :
    ([("A", ((1 : ℝ), (90 : ℝ)))].map Prod.fst =
        ([("A", (1 : ℝ))].map Prod.fst).filter
          (fun k => decide (k ∈ [("A", (90 : ℝ))].map Prod.fst))) ∧
    (∀ k, k ∈ [("A", ((1 : ℝ), (90 : ℝ)))].map Prod.fst ↔
        k ∈ [("A", (1 : ℝ))].map Prod.fst ∧ k ∈ [("A", (90 : ℝ))].map Prod.fst) ∧
    (∀ k tv dv, (k, tv, dv) ∈ [("A", ((1 : ℝ), (90 : ℝ)))] →
        (k, tv) ∈ [("A", (1 : ℝ))] ∧ (k, dv) ∈ [("A", (90 : ℝ))]) :=
  combine_inner_join hdr5 rowsC5 3 [("A", 1)] [("A", 90)] [("A", (1, 90))]
    t_test_rowsC5 mink_rowsC5 combine_rowsC5

/-! ## C10 -/

/-- C10: whenever the parsing phase of `calculate_minkowski_distances`
succeeds, the whole call succeeds — in particular the dimension-mismatch
error is never triggered: the two per-group feature vectors are projections
of one shared list of (employees, salary) pairs, so they always have equal
length and that error branch is unreachable from this caller.  The statement
is restricted to exponents `p > 0`, the region on which the real-exponent
model agrees with the Python program (at `p = 0` Python would instead raise
`ZeroDivisionError` from `1 / p`, and `0.0 ** p` raises for negative `p`;
the caller always passes `p = 3`). -/
theorem mink_never_dimension_mismatch (header : List String) (rows : List Row) (p : ℝ)
    (ei si : Nat) (cd : MState) (_hp : 0 < p)
    (he : headerIdx header "number of employees" = some ei)
    (hs : headerIdx header "median Salary" = some si)
    (hb : buildM header ei si rows [] = .ok cd) :
    ∃ out, calculate_minkowski_distances header rows p = .ok out := by
  simp only [calculate_minkowski_distances, he, hs, hb]
  apply exMapM_ok_of_all
  intro a ha
  rw [minkowski_distance, if_neg (by simp)]
  exact ⟨_, rfl⟩

/-- C10 witness: instantiated on `rowsC5` (whose parsing succeeds) at the
caller's exponent `p = 3`. -/
theorem mink_never_dimension_mismatch_witness :
    (0 : ℝ) < 3 ∧ ∃ out, calculate_minkowski_distances hdr5 rowsC5 3 = .ok out :=
  ⟨by norm_num,
    mink_never_dimension_mismatch hdr5 rowsC5 3 1 2
      [("A", [((10 : ℤ), (100 : ℚ)), ((10 : ℤ), (10 : ℚ))])] (by norm_num) rfl rfl rfl⟩

/-! ## Category Ranking Engine -/

/-- Python `str.lower()`: lower-case every character. -/
def pyLower (s : String) : String := String.mk (s.data.map Char.toLower)

/-- Round half to even on an exact rational (the rounding of Python's
`f"{x:.4f}"` format). -/
def roundHalfEvenQ (q : ℚ) : ℤ :=
  let f : ℤ := ⌊q⌋
  let r : ℚ := q - f
  if r < 1 / 2 then f
  else if 1 / 2 < r then f + 1
  else if f % 2 = 0 then f else f + 1

/-- Python `f"{x:.4f}"`: the value rounded to four decimal places and
rendered with exactly four fractional digits. -/
def formatFix4 (q : ℚ) : String :=
  let n : ℤ := roundHalfEvenQ (q * 10000)
  let sign := if n < 0 then "-" else ""
  let m : ℕ := n.natAbs
  let frac : ℕ := m % 10000
  sign ++ toString (m / 10000) ++ "." ++
    (toString (frac / 1000) ++ toString (frac / 100 % 10) ++
     toString (frac / 10 % 10) ++ toString (frac % 10))

/-- What `calculate_category_data` does with one data row. -/
inductive CatOutcome
  | skip
  | abort
  | keep (category orgId : String) (employees : ℤ) (pct : String)
deriving DecidableEq, Repr

/-- The body of the row loop of `calculate_category_data` (adm.py lines
135-156), in source order: `row[5].lower()`, `row[0]`, `int(row[6])`,
`float(row[8])`, `float(row[9])` — any `IndexError`/`ValueError` is caught
and the row is skipped; then `employees <= 0` skips the row; then the
percentage change `abs(((p21 - p20) / p20) * 100)` is computed, and a zero
2020 profit raises `ZeroDivisionError`, which the handler does not catch. -/
def catRowOutcome (row : Row) : CatOutcome :=
  match row.get? 5 with
  | none => .skip
  | some c5 =>
    match row.get? 0 with
    | none => .skip
    | some c0 =>
      match row.get? 6 with
      | none => .skip
      | some c6 =>
        match c6.asInt with
        | none => .skip
        | some emp =>
          match row.get? 8 with
          | none => .skip
          | some c8 =>
            match c8.asFloat with
            | none => .skip
            | some p20 =>
              match row.get? 9 with
              | none => .skip
              | some c9 =>
                match c9.asFloat with
                | none => .skip
                | some p21 =>
                  if emp ≤ 0 then .skip
                  else if p20 = 0 then .abort
                  else
                    .keep (pyLower c5.raw) c0.raw emp
                      (formatFix4 |((p21 - p20) / p20) * 100|)

/-- The rows `calculate_category_data` silently skips: rows shorter than a
required positional index, rows whose category/id/employee/profit cells fail
to parse, and rows with employee count ≤ 0. -/
def skippedRow (row : Row) : Bool :=
  match row.get? 5 with
  | none => true
  | some _ =>
    match row.get? 0 with
    | none => true
    | some _ =>
      match row.get? 6 with
      | none => true
      | some c6 =>
        match c6.asInt with
        | none => true
        | some emp =>
          match row.get? 8 with
          | none => true
          | some c8 =>
            match c8.asFloat with
            | none => true
            | some _ =>
              match row.get? 9 with
              | none => true
              | some c9 =>
                match c9.asFloat with
                | none => true
                | some _ => decide (emp ≤ 0)

/-- The nested grouping state of `calculate_category_data`:
category → organisation id → list of (employees, percentage string). -/
abbrev CState := List (String × List (String × List (ℤ × String)))

/-- One iteration of the row loop: skipped rows leave the state unchanged,
an uncaught `ZeroDivisionError` aborts, surviving rows are appended under
`(category, org id)`. -/
def catStep (st : CState) (row : Row) : Except PyErr CState :=
  match catRowOutcome row with
  | .skip => .ok st
  | .abort => .error .zeroDivisionError
  | .keep cat org emp pct =>
    .ok (upsert st cat [] (fun inner => appendAt inner org (emp, pct)))

/-- The row loop of `calculate_category_data` over `csv_data[1:]`. -/
def buildC : List Row → CState → Except PyErr CState
  | [], st => .ok st
  | row :: rest, st =>
    match catStep st row with
    | .error e => .error e
    | .ok st' => buildC rest st'

/-- The ranking key: `sum(float(data[0]) for data in org_info)`, the summed
employee counts of one organisation's rows. -/
def sumEmp (oe : String × List (ℤ × String)) : ℚ :=
  (oe.2.map (fun pr => ((pr.1 : ℤ) : ℚ))).sum

/-- Stable insertion into a list sorted descending by `key`: the new element
goes before the first element whose key is ≤ its own. -/
def insertDesc {α : Type} (key : α → ℚ) (a : α) : List α → List α
  | [] => [a]
  | b :: rest => if key b ≤ key a then a :: b :: rest else b :: insertDesc key a rest

/-- Stable sort descending by `key`, modelling Python's stable
`sorted(..., key=..., reverse=True)`: elements with equal keys keep their
original relative order. -/
def sortDesc {α : Type} (key : α → ℚ) : List α → List α
  | [] => []
  | a :: rest => insertDesc key a (sortDesc key rest)

/-- The rank `enumerate(sorted_orgs, start=1)` assigns to an organisation:
one plus its position in the stable descending sort by summed employees. -/
def rankIn (orgs : List (String × List (ℤ × String))) (org : String) : ℕ :=
  ((sortDesc sumEmp orgs).map Prod.fst).indexOf org + 1

/-- The ranking pass of `calculate_category_data` for one category (adm.py
lines 158-162): every row-pair of an organisation gets that organisation's
rank appended. -/
def rankedCategory (orgs : List (String × List (ℤ × String))) :
    List (String × List (ℤ × String × ℕ)) :=
  orgs.map (fun oe => (oe.1, oe.2.map (fun pr => (pr.1, pr.2, rankIn orgs oe.1))))

/-- `calculate_category_data(csv_data)` (adm.py lines 130-164): skip the
header row, bucket the surviving rows by (category, org id) while skipping
malformed rows, then rank each category's organisations. -/
def calculate_category_data (csv : List Row) :
    Except PyErr (List (String × List (String × List (ℤ × String × ℕ)))) :=
  match buildC (csv.drop 1) [] with
  | .error e => .error e
  | .ok m => .ok (m.map (fun co => (co.1, rankedCategory co.2)))

/-! ## C9 -/

/-- A row whose five positional fields parse, with positive employees and a
zero 2020 profit. -/
def rowCat0 : Row :=
  [strCell "o1", strCell "", strCell "", strCell "", strCell "",
   strCell "tech", intCell "5" 5, strCell "", floatCell "0.0" 0, floatCell "1.0" 1]

/-- A fully well-formed category row. -/
def rowCatGood : Row :=
  [strCell "o2", strCell "", strCell "", strCell "", strCell "",
   strCell "tech", intCell "4" 4, strCell "", floatCell "2.0" 2, floatCell "3.0" 3]

/-- C9: there is an input row (all five fields parse, employees > 0, 2020
profit equal to 0) on which `calculate_category_data` raises an uncaught
`ZeroDivisionError` in the percentage-change computation and aborts the whole
call — the handler catches only `ValueError` and `IndexError`, so the later
well-formed row is never processed. -/
theorem category_data_divzero_abort :
    calculate_category_data [[], rowCat0, rowCatGood] = .error .zeroDivisionError := rfl

/-! ## C7 -/

lemma skippedRow_iff (row : Row) : skippedRow row = true ↔ catRowOutcome row = .skip := by
  unfold skippedRow catRowOutcome
  repeat' split
  all_goals simp_all

lemma buildC_filter : ∀ (rows : List Row) (st : CState),
    buildC rows st = buildC (rows.filter (fun r => !skippedRow r)) st := by
  intro rows
  induction rows with
  | nil => intro st; rfl
  | cons row rest ih =>
    intro st
    by_cases h : skippedRow row = true
    · have hstep : catStep st row = .ok st := by
        rw [skippedRow_iff] at h
        simp only [catStep, h]
      have hfilter : (row :: rest).filter (fun r => !skippedRow r)
          = rest.filter (fun r => !skippedRow r) := by
        simp [List.filter_cons, h]
      rw [hfilter]
      simp only [buildC, hstep]
      exact ih st
    · have hf : skippedRow row = false := by
        revert h
        cases skippedRow row <;> simp
      have hfilter : (row :: rest).filter (fun r => !skippedRow r)
          = row :: rest.filter (fun r => !skippedRow r) := by
        simp [List.filter_cons, hf]
      rw [hfilter]
      simp only [buildC]
      cases hstep : catStep st row with
      | error e => simp only [hstep]
      | ok st' =>
        simp only [hstep]
        exact ih st'

/-- C7: `calculate_category_data` silently skips rows that are too short,
have unparseable cells or have employee count ≤ 0: such a row leaves the
grouping state unchanged (so it contributes to neither the ranking sums nor
the percentage entries), and deleting all such rows from the input does not
change the result, while processing continues for the remaining rows. -/
theorem category_data_skips :
    (∀ (st : CState) (row : Row), skippedRow row = true → catStep st row = .ok st) ∧
    (∀ csv : List Row,
      calculate_category_data csv =
        calculate_category_data
          (csv.take 1 ++ (csv.drop 1).filter (fun r => !skippedRow r))) := by
  constructor
  · intro st row h
    rw [skippedRow_iff] at h
    simp only [catStep, h]
  · intro csv
    cases csv with
    | nil => rfl
    | cons h0 t =>
      simp only [calculate_category_data, List.take_succ_cons, List.take_zero,
        List.cons_append, List.nil_append, List.drop_succ_cons, List.drop_zero]
      rw [buildC_filter t []]

/-- A row with employee count 0, otherwise parseable. -/
def rowSkip : Row :=
  [strCell "o3", strCell "", strCell "", strCell "", strCell "",
   strCell "tech", intCell "0" 0, strCell "", floatCell "1.0" 1, floatCell "2.0" 2]

/-- C7 witness: the zero-employee row is a skipped row and the step on it
leaves the state unchanged. -/
theorem category_data_skips_witness :
    skippedRow rowSkip = true ∧ catStep [] rowSkip = .ok [] :=
  ⟨rfl, category_data_skips.1 [] rowSkip rfl⟩

/-! ## Stable descending sort lemmas -/

lemma insertDesc_perm {α : Type} (key : α → ℚ) (a : α) :
    ∀ l : List α, (insertDesc key a l).Perm (a :: l) := by
  intro l
  induction l with
  | nil => exact List.Perm.refl _
  | cons b rest ih =>
    rw [insertDesc]
    by_cases h : key b ≤ key a
    · rw [if_pos h]
    · rw [if_neg h]
      exact (ih.cons b).trans (List.Perm.swap a b rest)

lemma sortDesc_perm {α : Type} (key : α → ℚ) :
    ∀ l : List α, (sortDesc key l).Perm l := by
  intro l
  induction l with
  | nil => exact List.Perm.refl _
  | cons a rest ih =>
    rw [sortDesc]
    exact (insertDesc_perm key a _).trans (ih.cons a)

lemma insertDesc_sorted {α : Type} (key : α → ℚ) (a : α) :
    ∀ l : List α, l.Pairwise (fun u v => key v ≤ key u) →
      (insertDesc key a l).Pairwise (fun u v => key v ≤ key u) := by
  intro l
  induction l with
  | nil => intro _; simp [insertDesc]
  | cons b rest ih =>
    intro hp
    rw [insertDesc]
    by_cases h : key b ≤ key a
    · rw [if_pos h]
      rw [List.pairwise_cons]
      refine ⟨?_, hp⟩
      intro x hx
      rcases List.mem_cons.mp hx with rfl | hx'
      · exact h
      · exact le_trans ((List.pairwise_cons.mp hp).1 x hx') h
    · rw [if_neg h]
      rw [List.pairwise_cons] at hp ⊢
      obtain ⟨hb, hrest⟩ := hp
      refine ⟨?_, ih hrest⟩
      intro x hx
      have hmem : x ∈ a :: rest := (insertDesc_perm key a rest).mem_iff.mp hx
      rcases List.mem_cons.mp hmem with rfl | hx'
      · exact le_of_not_le h
      · exact hb x hx'

lemma sortDesc_sorted {α : Type} (key : α → ℚ) :
    ∀ l : List α, (sortDesc key l).Pairwise (fun u v => key v ≤ key u) := by
  intro l
  induction l with
  | nil => simp [sortDesc]
  | cons a rest ih =>
    rw [sortDesc]
    exact insertDesc_sorted key a _ ih

lemma insertDesc_eq_takeWhile_dropWhile {α : Type} (key : α → ℚ) (a : α) :
    ∀ l : List α,
      insertDesc key a l =
        l.takeWhile (fun b => decide (key a < key b)) ++
          a :: l.dropWhile (fun b => decide (key a < key b)) := by
  intro l
  induction l with
  | nil => rfl
  | cons b rest ih =>
    rw [insertDesc]
    by_cases h : key b ≤ key a
    · rw [if_pos h]
      have hd : (decide (key a < key b)) = false := by simp [not_lt.mpr h]
      rw [List.takeWhile_cons, List.dropWhile_cons]
      simp [hd]
    · rw [if_neg h]
      have hd : (decide (key a < key b)) = true := by simp [not_le.mp h]
      rw [List.takeWhile_cons, List.dropWhile_cons]
      simp only [hd, if_true, List.cons_append]
      rw [ih]

lemma sublist_insertDesc {α : Type} (key : α → ℚ) (a : α) (l : List α) :
    List.Sublist l (insertDesc key a l) := by
  rw [insertDesc_eq_takeWhile_dropWhile]
  have hsplit := List.takeWhile_append_dropWhile (fun b => decide (key a < key b)) l
  conv_lhs => rw [← hsplit]
  exact List.Sublist.append_left (List.sublist_cons_self a _) _

lemma stable_pair {α : Type} (key : α → ℚ) (x y : α) :
    ∀ l : List α, List.Sublist [x, y] l → key y ≤ key x →
      List.Sublist [x, y] (sortDesc key l) := by
  intro l
  induction l with
  | nil => intro h _; exact absurd h (by simp)
  | cons a rest ih =>
    intro h hkey
    rw [sortDesc]
    cases h with
    | cons _ h' =>
      exact (ih h' hkey).trans (sublist_insertDesc key a _)
    | cons₂ _ h' =>
      rw [insertDesc_eq_takeWhile_dropWhile]
      have hy : y ∈ sortDesc key rest :=
        ((sortDesc_perm key rest).mem_iff).mpr (h'.subset (by simp))
      have hy' : y ∈ (sortDesc key rest).dropWhile (fun b => decide (key x < key b)) := by
        have hsplit := List.takeWhile_append_dropWhile
          (fun b => decide (key x < key b)) (sortDesc key rest)
        rw [← hsplit] at hy
        rcases List.mem_append.mp hy with h1 | h1
        · exfalso
          have h2 := List.mem_takeWhile_imp h1
          simp only [decide_eq_true_eq] at h2
          exact absurd hkey (not_le.mpr h2)
        · exact h1
      have h2 : List.Sublist [x, y]
          (x :: (sortDesc key rest).dropWhile (fun b => decide (key x < key b))) :=
        List.Sublist.cons₂ x (List.singleton_sublist.mpr hy')
      exact h2.trans (List.sublist_append_right _ _)

lemma pair_sublist_of_index {α : Type} :
    ∀ (l : List α) (i j : ℕ) (hi : i < l.length) (hj : j < l.length), i < j →
      List.Sublist [l.get ⟨i, hi⟩, l.get ⟨j, hj⟩] l := by
  intro l
  induction l with
  | nil => intro i j hi; simp at hi
  | cons a rest ih =>
    intro i j hi hj hij
    cases i with
    | zero =>
      cases j with
      | zero => exact absurd hij (lt_irrefl 0)
      | succ j' =>
        have hj' : j' < rest.length := by simpa using hj
        have hmem : rest.get ⟨j', hj'⟩ ∈ rest := rest.get_mem j' hj'
        exact List.Sublist.cons₂ a (List.singleton_sublist.mpr hmem)
    | succ i' =>
      cases j with
      | zero => exact absurd hij (by omega)
      | succ j' =>
        have hi' : i' < rest.length := by simpa using hi
        have hj' : j' < rest.length := by simpa using hj
        exact List.Sublist.cons a (ih i' j' hi' hj' (by omega))

/-! ## indexOf lemmas for ranking -/

lemma indexOf_lt_of_pair_sublist {β : Type} :
    ∀ (L : List (String × β)) (x y : String × β),
      List.Sublist [x, y] L → (L.map Prod.fst).Nodup →
      (L.map Prod.fst).indexOf x.1 < (L.map Prod.fst).indexOf y.1 := by
  intro L
  induction L with
  | nil => intro x y h _; exact absurd h (by simp)
  | cons e rest ih =>
    intro x y h hnd
    simp only [List.map_cons, List.nodup_cons] at hnd
    obtain ⟨hnm, hnd'⟩ := hnd
    cases h with
    | cons _ h' =>
      have hx : x ∈ rest := h'.subset (by simp)
      have hy : y ∈ rest := h'.subset (by simp)
      have hxe : e.1 ≠ x.1 := fun hc =>
        hnm (hc ▸ List.mem_map.mpr ⟨x, hx, rfl⟩)
      have hye : e.1 ≠ y.1 := fun hc =>
        hnm (hc ▸ List.mem_map.mpr ⟨y, hy, rfl⟩)
      simp only [List.map_cons]
      rw [List.indexOf_cons_ne _ hxe, List.indexOf_cons_ne _ hye]
      exact Nat.succ_lt_succ (ih x y h' hnd')
    | cons₂ _ h' =>
      have hy : y ∈ rest := h'.subset (by simp)
      have hyx : e.1 ≠ y.1 := fun hc =>
        hnm (hc ▸ List.mem_map.mpr ⟨y, hy, rfl⟩)
      simp only [List.map_cons]
      rw [List.indexOf_cons_self, List.indexOf_cons_ne _ hyx]
      exact Nat.succ_pos _

lemma entry_at_indexOf {β : Type} (L : List (String × β)) (hnd : (L.map Prod.fst).Nodup)
    (o : String × β) (ho : o ∈ L) (h : (L.map Prod.fst).indexOf o.1 < L.length) :
    L.get ⟨(L.map Prod.fst).indexOf o.1, h⟩ = o := by
  have hiL : (L.map Prod.fst).indexOf o.1 < (L.map Prod.fst).length := by simpa using h
  have h1 : (L.map Prod.fst)[(L.map Prod.fst).indexOf o.1] = o.1 :=
    List.getElem_indexOf hiL
  obtain ⟨⟨j, hj⟩, hget⟩ := List.mem_iff_get.mp ho
  have hjL : j < (L.map Prod.fst).length := by simpa using hj
  have hget' : L[j] = o := by
    rw [List.get_eq_getElem] at hget
    exact hget
  have h2 : (L.map Prod.fst)[j] = o.1 := by
    rw [List.getElem_map, hget']
  have hij : (L.map Prod.fst).indexOf o.1 = j := hnd.getElem_inj_iff.mp (h1.trans h2.symm)
  have hmid : L.get ⟨(L.map Prod.fst).indexOf o.1, h⟩ = L.get ⟨j, hj⟩ :=
    congrArg _ (Fin.ext hij)
  exact hmid.trans hget

/-! ## Rank lemmas for C6 -/

lemma sortDesc_names_nodup (orgs : List (String × List (ℤ × String)))
    (hnd : (orgs.map Prod.fst).Nodup) :
    ((sortDesc sumEmp orgs).map Prod.fst).Nodup :=
  (((sortDesc_perm sumEmp orgs).map Prod.fst).nodup_iff).mpr hnd

lemma rankIn_lt_of_gt (orgs : List (String × List (ℤ × String)))
    (hnd : (orgs.map Prod.fst).Nodup) (o1 o2 : String × List (ℤ × String))
    (h1 : o1 ∈ orgs) (h2 : o2 ∈ orgs) (hk : sumEmp o2 < sumEmp o1) :
    rankIn orgs o1.1 < rankIn orgs o2.1 := by
  have hperm := sortDesc_perm sumEmp orgs
  have hnd' := sortDesc_names_nodup orgs hnd
  have h1s : o1 ∈ sortDesc sumEmp orgs := hperm.mem_iff.mpr h1
  have h2s : o2 ∈ sortDesc sumEmp orgs := hperm.mem_iff.mpr h2
  have hi1 : ((sortDesc sumEmp orgs).map Prod.fst).indexOf o1.1 < (sortDesc sumEmp orgs).length := by
    have hm : o1.1 ∈ (sortDesc sumEmp orgs).map Prod.fst := List.mem_map.mpr ⟨o1, h1s, rfl⟩
    have := List.indexOf_lt_length.mpr hm
    simpa using this
  have hi2 : ((sortDesc sumEmp orgs).map Prod.fst).indexOf o2.1 < (sortDesc sumEmp orgs).length := by
    have hm : o2.1 ∈ (sortDesc sumEmp orgs).map Prod.fst := List.mem_map.mpr ⟨o2, h2s, rfl⟩
    have := List.indexOf_lt_length.mpr hm
    simpa using this
  have hg1 := entry_at_indexOf (sortDesc sumEmp orgs) hnd' o1 h1s hi1
  have hg2 := entry_at_indexOf (sortDesc sumEmp orgs) hnd' o2 h2s hi2
  have key : ((sortDesc sumEmp orgs).map Prod.fst).indexOf o1.1
      < ((sortDesc sumEmp orgs).map Prod.fst).indexOf o2.1 := by
    by_contra hcon
    push_neg at hcon
    rcases lt_or_eq_of_le hcon with hlt | heq
    · have hp := sortDesc_sorted sumEmp orgs
      rw [List.pairwise_iff_getElem] at hp
      have hle := hp _ _ hi2 hi1 hlt
      have hg1' : (sortDesc sumEmp orgs)[List.indexOf o1.1
          (List.map Prod.fst (sortDesc sumEmp orgs))] = o1 := hg1
      have hg2' : (sortDesc sumEmp orgs)[List.indexOf o2.1
          (List.map Prod.fst (sortDesc sumEmp orgs))] = o2 := hg2
      rw [hg1', hg2'] at hle
      exact absurd hk (not_lt.mpr hle)
    · have hmid : (sortDesc sumEmp orgs).get
            ⟨List.indexOf o2.1 (List.map Prod.fst (sortDesc sumEmp orgs)), hi2⟩
          = (sortDesc sumEmp orgs).get
            ⟨List.indexOf o1.1 (List.map Prod.fst (sortDesc sumEmp orgs)), hi1⟩ :=
        congrArg _ (Fin.ext heq)
      have ho21 : o2 = o1 := hg2.symm.trans (hmid.trans hg1)
      rw [ho21] at hk
      exact lt_irrefl _ hk
  rw [rankIn, rankIn]
  omega

lemma rankIn_lt_of_tie (orgs : List (String × List (ℤ × String)))
    (hnd : (orgs.map Prod.fst).Nodup)
    (i j : ℕ) (hi : i < orgs.length) (hj : j < orgs.length) (hij : i < j)
    (heq : sumEmp (orgs.get ⟨i, hi⟩) = sumEmp (orgs.get ⟨j, hj⟩)) :
    rankIn orgs (orgs.get ⟨i, hi⟩).1 < rankIn orgs (orgs.get ⟨j, hj⟩).1 := by
  have hsub := pair_sublist_of_index orgs i j hi hj hij
  have hstable := stable_pair sumEmp (orgs.get ⟨i, hi⟩) (orgs.get ⟨j, hj⟩) orgs hsub
    (le_of_eq heq.symm)
  have hnd' := sortDesc_names_nodup orgs hnd
  have hidx := indexOf_lt_of_pair_sublist (sortDesc sumEmp orgs) _ _ hstable hnd'
  rw [rankIn, rankIn]
  omega

lemma map_indexOf_self_eq_range :
    ∀ L : List String, L.Nodup → L.map (fun k => L.indexOf k) = List.range L.length := by
  intro L
  induction L with
  | nil => intro _; rfl
  | cons a t ih =>
    intro hnd
    rw [List.nodup_cons] at hnd
    obtain ⟨hna, hnd'⟩ := hnd
    simp only [List.map_cons, List.indexOf_cons_self, List.length_cons,
      List.range_succ_eq_map]
    congr 1
    have hstep : t.map (fun k => (a :: t).indexOf k) = t.map (fun k => t.indexOf k + 1) := by
      apply List.map_congr_left
      intro k hk
      have hka : a ≠ k := fun hc => hna (hc ▸ hk)
      exact List.indexOf_cons_ne t hka
    rw [hstep,
      show (fun k => t.indexOf k + 1) = Nat.succ ∘ (fun k => t.indexOf k) from rfl,
      ← List.map_map, ih hnd']

lemma ranks_perm (orgs : List (String × List (ℤ × String)))
    (hnd : (orgs.map Prod.fst).Nodup) :
    (orgs.map (fun o => rankIn orgs o.1)).Perm (List.range' 1 orgs.length) := by
  have hperm := sortDesc_perm sumEmp orgs
  have hnd' := sortDesc_names_nodup orgs hnd
  have hcomp : orgs.map (fun o => rankIn orgs o.1)
      = (orgs.map Prod.fst).map
          (fun k => ((sortDesc sumEmp orgs).map Prod.fst).indexOf k + 1) := by
    rw [List.map_map]
    rfl
  rw [hcomp]
  refine (((hperm.map Prod.fst).symm).map _).trans ?_
  have hmap : ((sortDesc sumEmp orgs).map Prod.fst).map
      (fun k => ((sortDesc sumEmp orgs).map Prod.fst).indexOf k + 1)
      = (List.range ((sortDesc sumEmp orgs).map Prod.fst).length).map (fun i => i + 1) := by
    rw [show (fun k => ((sortDesc sumEmp orgs).map Prod.fst).indexOf k + 1)
        = (fun i => i + 1) ∘ (fun k => ((sortDesc sumEmp orgs).map Prod.fst).indexOf k)
        from rfl,
      ← List.map_map, map_indexOf_self_eq_range _ hnd']
  rw [hmap]
  have hlen : ((sortDesc sumEmp orgs).map Prod.fst).length = orgs.length := by
    simpa using hperm.length_eq
  rw [hlen, List.range'_eq_map_range]
  have hflip : (List.range orgs.length).map (fun i => i + 1)
      = (List.range orgs.length).map (fun i => 1 + i) :=
    List.map_congr_left (fun i _ => by omega)
  rw [hflip]

/-! ## buildC invariants -/

lemma upsert_preserves {α : Type} (P : α → Prop) :
    ∀ (m : List (String × α)) (k : String) (dflt : α) (f : α → α),
      (∀ e ∈ m, P e.2) → P (f dflt) → (∀ v, P v → P (f v)) →
      ∀ e ∈ upsert m k dflt f, P e.2 := by
  intro m
  induction m with
  | nil =>
    intro k dflt f _ hfd _ e he
    simp only [upsert] at he
    rcases List.mem_singleton.mp he with rfl
    exact hfd
  | cons e0 rest ih =>
    intro k dflt f hm hfd hf e he
    obtain ⟨k0, v0⟩ := e0
    by_cases h0 : k0 = k
    · subst h0
      simp only [upsert, if_pos rfl] at he
      rcases List.mem_cons.mp he with rfl | hrest
      · exact hf v0 (hm _ (List.mem_cons_self _ _))
      · exact hm _ (List.mem_cons_of_mem _ hrest)
    · simp only [upsert, if_neg h0] at he
      rcases List.mem_cons.mp he with rfl | hrest
      · exact hm _ (List.mem_cons_self _ _)
      · exact ih k dflt f (fun x hx => hm x (List.mem_cons_of_mem _ hx)) hfd hf e hrest

lemma buildC_nodup : ∀ (rows : List Row) (st fin : CState),
    buildC rows st = .ok fin →
    (∀ e ∈ st, ((e.2 : List (String × List (ℤ × String))).map Prod.fst).Nodup) →
    ∀ e ∈ fin, (e.2.map Prod.fst).Nodup := by
  intro rows
  induction rows with
  | nil =>
    intro st fin hb h
    simp only [buildC] at hb
    obtain rfl : st = fin := by simpa using hb
    exact h
  | cons row rest ih =>
    intro st fin hb h
    simp only [buildC] at hb
    cases ho : catRowOutcome row with
    | skip =>
      simp only [catStep, ho] at hb
      exact ih st fin hb h
    | abort =>
      simp only [catStep, ho] at hb
      exact Except.noConfusion hb
    | keep cat org emp pct =>
      simp only [catStep, ho] at hb
      refine ih _ fin hb ?_
      intro e he
      refine upsert_preserves
        (fun l : List (String × List (ℤ × String)) => (l.map Prod.fst).Nodup)
        st cat [] _ h ?_ ?_ e he
      · simp [appendAt, upsert]
      · intro v hv
        exact nodup_map_fst_appendAt v org (emp, pct) hv

/-! ## C6 -/

/-- C6: in every category of the output of `calculate_category_data`, the
entities' ranks are exactly 1..K (a permutation: no duplicates, no gaps),
entities with strictly larger summed employee count get strictly smaller
ranks, ties are broken by first-encountered (insertion) order, and every
row-triple of an entity carries that entity's rank. -/
theorem category_ranks (csv : List Row)
    (out : List (String × List (String × List (ℤ × String × ℕ)))) (cat : String)
    (ranked : List (String × List (ℤ × String × ℕ)))
    (h1 : calculate_category_data csv = .ok out) (h2 : (cat, ranked) ∈ out) :
    ∃ orgs : List (String × List (ℤ × String)),
      ranked = rankedCategory orgs ∧
      ranked.length = orgs.length ∧
      (orgs.map (fun o => rankIn orgs o.1)).Perm (List.range' 1 orgs.length) ∧
      (∀ o1 o2, o1 ∈ orgs → o2 ∈ orgs → sumEmp o2 < sumEmp o1 →
        rankIn orgs o1.1 < rankIn orgs o2.1) ∧
      (∀ (i j : ℕ) (hi : i < orgs.length) (hj : j < orgs.length), i < j →
        sumEmp (orgs.get ⟨i, hi⟩) = sumEmp (orgs.get ⟨j, hj⟩) →
        rankIn orgs (orgs.get ⟨i, hi⟩).1 < rankIn orgs (orgs.get ⟨j, hj⟩).1) ∧
      (∀ org entries, (org, entries) ∈ ranked → ∀ e ∈ entries,
        e.2.2 = rankIn orgs org) := by
  simp only [calculate_category_data] at h1
  cases hb : buildC (csv.drop 1) [] with
  | error e =>
    rw [hb] at h1
    exact Except.noConfusion h1
  | ok m =>
    rw [hb] at h1
    simp only [Except.ok.injEq] at h1
    subst h1
    rw [List.mem_map] at h2
    obtain ⟨co, hco, hmap⟩ := h2
    obtain ⟨ccat, orgs⟩ := co
    simp only [Prod.mk.injEq] at hmap
    obtain ⟨rfl, rfl⟩ := hmap
    have hnd : (orgs.map Prod.fst).Nodup :=
      buildC_nodup (csv.drop 1) [] m hb (by simp) (ccat, orgs) hco
    refine ⟨orgs, rfl, by simp [rankedCategory], ranks_perm orgs hnd,
      fun o1 o2 ho1 ho2 hk => rankIn_lt_of_gt orgs hnd o1 o2 ho1 ho2 hk,
      fun i j hi hj hij heq => rankIn_lt_of_tie orgs hnd i j hi hj hij heq, ?_⟩
    intro org entries hoe e he
    rw [rankedCategory, List.mem_map] at hoe
    obtain ⟨oe, hoe', hmap'⟩ := hoe
    simp only [Prod.mk.injEq] at hmap'
    obtain ⟨rfl, rfl⟩ := hmap'
    rw [List.mem_map] at he
    obtain ⟨pr, _, hpr⟩ := he
    rw [← hpr]

/-! ## C6 witness: a category with two tied entities -/

/-- Entity a1, category retail, 50 employees, equal profits. -/
def rowR1 : Row :=
  [strCell "a1", strCell "", strCell "", strCell "", strCell "",
   strCell "retail", intCell "50" 50, strCell "", floatCell "1.0" 1, floatCell "1.0" 1]

/-- Entity b1, category retail, 50 employees, equal profits. -/
def rowR2 : Row :=
  [strCell "b1", strCell "", strCell "", strCell "", strCell "",
   strCell "retail", intCell "50" 50, strCell "", floatCell "2.0" 2, floatCell "2.0" 2]

/-- Header row plus the two tied retail rows. -/
def csvR : List Row := [[], rowR1, rowR2]

/-- The grouping both rows produce: two entities with equal size score. -/
def orgsR : List (String × List (ℤ × String)) :=
  [("a1", [((50 : ℤ), "0.0000")]), ("b1", [((50 : ℤ), "0.0000")])]

lemma formatFix4_zero : formatFix4 0 = "0.0000" := by
  have hr : roundHalfEvenQ ((0 : ℚ) * 10000) = 0 := by
    norm_num [roundHalfEvenQ]
  simp only [formatFix4, hr]
  rfl

lemma catRowOutcome_rowR1 : catRowOutcome rowR1 = .keep "retail" "a1" 50 "0.0000" := by
  have g5 : rowR1.get? 5 = some (strCell "retail") := rfl
  have g0 : rowR1.get? 0 = some (strCell "a1") := rfl
  have g6 : rowR1.get? 6 = some (intCell "50" 50) := rfl
  have g8 : rowR1.get? 8 = some (floatCell "1.0" 1) := rfl
  have g9 : rowR1.get? 9 = some (floatCell "1.0" 1) := rfl
  have hpct : formatFix4 |((1 : ℚ) - 1) / 1 * 100| = "0.0000" := by
    rw [show |((1 : ℚ) - 1) / 1 * 100| = 0 by norm_num, formatFix4_zero]
  simp only [catRowOutcome, g5, g0, g6, g8, g9, strCell, intCell, floatCell]
  rw [if_neg (by norm_num : ¬(50 : ℤ) ≤ 0), if_neg (by norm_num : ¬(1 : ℚ) = 0), hpct]
  rfl

lemma catRowOutcome_rowR2 : catRowOutcome rowR2 = .keep "retail" "b1" 50 "0.0000" := by
  have g5 : rowR2.get? 5 = some (strCell "retail") := rfl
  have g0 : rowR2.get? 0 = some (strCell "b1") := rfl
  have g6 : rowR2.get? 6 = some (intCell "50" 50) := rfl
  have g8 : rowR2.get? 8 = some (floatCell "2.0" 2) := rfl
  have g9 : rowR2.get? 9 = some (floatCell "2.0" 2) := rfl
  have hpct : formatFix4 |((2 : ℚ) - 2) / 2 * 100| = "0.0000" := by
    rw [show |((2 : ℚ) - 2) / 2 * 100| = 0 by norm_num, formatFix4_zero]
  simp only [catRowOutcome, g5, g0, g6, g8, g9, strCell, intCell, floatCell]
  rw [if_neg (by norm_num : ¬(50 : ℤ) ≤ 0), if_neg (by norm_num : ¬(2 : ℚ) = 0), hpct]
  rfl

lemma category_rowsR :
    calculate_category_data csvR = .ok [("retail", rankedCategory orgsR)] := by
  have hdrop : csvR.drop 1 = [rowR1, rowR2] := rfl
  have h1 : catStep [] rowR1 = .ok [("retail", [("a1", [((50 : ℤ), "0.0000")])])] := by
    simp only [catStep, catRowOutcome_rowR1]
    rfl
  have h2 : catStep [("retail", [("a1", [((50 : ℤ), "0.0000")])])] rowR2
      = .ok [("retail",
          [("a1", [((50 : ℤ), "0.0000")]), ("b1", [((50 : ℤ), "0.0000")])])] := by
    simp only [catStep, catRowOutcome_rowR2]
    rfl
  simp only [calculate_category_data, hdrop, buildC, h1, h2]
  rfl

/-- C6 witness: instantiated on the two tied retail entities. -/
theorem category_ranks_witness :
    ∃ orgs : List (String × List (ℤ × String)),
      rankedCategory orgsR = rankedCategory orgs ∧
      (rankedCategory orgsR).length = orgs.length ∧
      (orgs.map (fun o => rankIn orgs o.1)).Perm (List.range' 1 orgs.length) ∧
      (∀ o1 o2, o1 ∈ orgs → o2 ∈ orgs → sumEmp o2 < sumEmp o1 →
        rankIn orgs o1.1 < rankIn orgs o2.1) ∧
      (∀ (i j : ℕ) (hi : i < orgs.length) (hj : j < orgs.length), i < j →
        sumEmp (orgs.get ⟨i, hi⟩) = sumEmp (orgs.get ⟨j, hj⟩) →
        rankIn orgs (orgs.get ⟨i, hi⟩).1 < rankIn orgs (orgs.get ⟨j, hj⟩).1) ∧
      (∀ org entries, (org, entries) ∈ rankedCategory orgsR → ∀ e ∈ entries,
        e.2.2 = rankIn orgs org) :=
  category_ranks csvR [("retail", rankedCategory orgsR)] "retail" (rankedCategory orgsR)
    category_rowsR (List.mem_singleton.mpr rfl)

/-! ## C8: the spec's worked example -/

/-- The three columns the Distance Engine needs. -/
def hdrM : List String := ["country", "number of employees", "median Salary"]

/-- Country X, employees 10, salary 100.0. -/
def rowX1 : Row := [strCell "X", intCell "10" 10, floatCell "100.0" 100]

/-- Country X, employees 20, salary 200.0. -/
def rowX2 : Row := [strCell "X", intCell "20" 20, floatCell "200.0" 200]

/-- The spec's example rows for country X. -/
def rowsX : List Row := [rowX1, rowX2]

lemma root_pow_three :
    ((6561000 : ℝ) ^ ((1 : ℝ) / 3)) ^ (3 : ℕ) = 6561000 := by
  rw [← Real.rpow_natCast ((6561000 : ℝ) ^ ((1 : ℝ) / 3)) 3,
    ← Real.rpow_mul (by norm_num : (0 : ℝ) ≤ 6561000)]
  norm_num

lemma root_bounds :
    (1872075 : ℝ) / 10000 ≤ (6561000 : ℝ) ^ ((1 : ℝ) / 3) ∧
    (6561000 : ℝ) ^ ((1 : ℝ) / 3) < (18720755 : ℝ) / 100000 := by
  have hx0 : (0 : ℝ) ≤ (6561000 : ℝ) ^ ((1 : ℝ) / 3) :=
    Real.rpow_nonneg (by norm_num) _
  constructor
  · by_contra hcon
    push_neg at hcon
    have h3 : ((6561000 : ℝ) ^ ((1 : ℝ) / 3)) ^ (3 : ℕ) < ((1872075 : ℝ) / 10000) ^ (3 : ℕ) :=
      pow_lt_pow_left₀ hcon hx0 (by norm_num)
    rw [root_pow_three] at h3
    norm_num at h3
  · by_contra hcon
    push_neg at hcon
    have h3 : ((18720755 : ℝ) / 100000) ^ (3 : ℕ) ≤ ((6561000 : ℝ) ^ ((1 : ℝ) / 3)) ^ (3 : ℕ) :=
      pow_le_pow_left₀ (by norm_num) hcon 3
    rw [root_pow_three] at h3
    norm_num at h3

lemma round4_root :
    round4 ((6561000 : ℝ) ^ ((1 : ℝ) / 3)) = (1872075 : ℝ) / 10000 := by
  obtain ⟨hlo, hhi⟩ := root_bounds
  rw [round4]
  have hfloor : ⌊(6561000 : ℝ) ^ ((1 : ℝ) / 3) * 10000⌋ = 1872075 := by
    rw [Int.floor_eq_iff]
    constructor
    · push_cast
      linarith
    · push_cast
      linarith
  have hpr : pyround ((6561000 : ℝ) ^ ((1 : ℝ) / 3) * 10000) = 1872075 := by
    simp only [pyround, hfloor]
    rw [if_pos]
    push_cast
    linarith
  rw [hpr]
  norm_num

lemma mink_rowsX :
    calculate_minkowski_distances hdrM rowsX 3 = .ok [("X", (1872075 : ℝ) / 10000)] := by
  have hb : buildM hdrM 1 2 rowsX [] =
      .ok [("X", [((10 : ℤ), (100 : ℚ)), ((20 : ℤ), (200 : ℚ))])] := rfl
  simp only [calculate_minkowski_distances,
    show headerIdx hdrM "number of employees" = some 1 from rfl,
    show headerIdx hdrM "median Salary" = some 2 from rfl, hb]
  have hx1 : ([((10 : ℤ), (100 : ℚ)), ((20 : ℤ), (200 : ℚ))].map (fun pt => ((pt.1 : ℤ) : ℝ)))
      = [10, 20] := by norm_num
  have hx2 : ([((10 : ℤ), (100 : ℚ)), ((20 : ℤ), (200 : ℚ))].map (fun pt => ((pt.2 : ℚ) : ℝ)))
      = [100, 200] := by norm_num
  have hmd : minkowski_distance [(10 : ℝ), 20] [(100 : ℝ), 200] 3
      = .ok ((6561000 : ℝ) ^ ((1 : ℝ) / 3)) := by
    rw [minkowski_distance, if_neg (by simp)]
    have h1 : |(10 : ℝ) - 100| ^ (3 : ℝ) = 729000 := by
      rw [show |(10 : ℝ) - 100| = 90 by rw [abs_of_nonpos] <;> norm_num,
        show (3 : ℝ) = ((3 : ℕ) : ℝ) by norm_num, Real.rpow_natCast]
      norm_num
    have h2 : |(20 : ℝ) - 200| ^ (3 : ℝ) = 5832000 := by
      rw [show |(20 : ℝ) - 200| = 180 by rw [abs_of_nonpos] <;> norm_num,
        show (3 : ℝ) = ((3 : ℕ) : ℝ) by norm_num, Real.rpow_natCast]
      norm_num
    have hsum : (List.zipWith (fun a b => |a - b| ^ (3 : ℝ)) [(10 : ℝ), 20] [(100 : ℝ), 200]).sum
        = 6561000 := by
      simp [h1, h2]
      norm_num
    rw [hsum]
  simp only [exMapM, hx1, hx2, hmd, round4_root]

/-- C8 counterexample: on the spec's example input the program maps "X" to
187.2075, not to a value near 180.95 — the two differ by more than 6. -/
theorem mink_example_not_180_95 :
    calculate_minkowski_distances hdrM rowsX 3 = .ok [("X", (1872075 : ℝ) / 10000)] ∧
    6 < |(1872075 : ℝ) / 10000 - 180.95| := by
  refine ⟨mink_rowsX, ?_⟩
  rw [abs_of_nonneg (by norm_num)]
  norm_num

/-- C8 amended: for the rows of country X with employees `[10, 20]`,
median salaries `[100.0, 200.0]` and `p = 3`, the program maps "X" to
`(|10-100|^3 + |20-200|^3)^(1/3)` rounded to 4 decimal digits, which is
187.2075 (not ≈ 180.95). -/
theorem mink_example_value :
    calculate_minkowski_distances hdrM rowsX 3
      = .ok [("X", round4 ((|(10 : ℝ) - 100| ^ (3 : ℝ) + |(20 : ℝ) - 200| ^ (3 : ℝ))
          ^ ((1 : ℝ) / 3)))] ∧
    round4 ((|(10 : ℝ) - 100| ^ (3 : ℝ) + |(20 : ℝ) - 200| ^ (3 : ℝ)) ^ ((1 : ℝ) / 3))
      = (1872075 : ℝ) / 10000 := by
  have h1 : |(10 : ℝ) - 100| ^ (3 : ℝ) = 729000 := by
    rw [show |(10 : ℝ) - 100| = 90 by rw [abs_of_nonpos] <;> norm_num,
      show (3 : ℝ) = ((3 : ℕ) : ℝ) by norm_num, Real.rpow_natCast]
    norm_num
  have h2 : |(20 : ℝ) - 200| ^ (3 : ℝ) = 5832000 := by
    rw [show |(20 : ℝ) - 200| = 180 by rw [abs_of_nonpos] <;> norm_num,
      show (3 : ℝ) = ((3 : ℕ) : ℝ) by norm_num, Real.rpow_natCast]
    norm_num
  have hval : round4 ((|(10 : ℝ) - 100| ^ (3 : ℝ) + |(20 : ℝ) - 200| ^ (3 : ℝ))
      ^ ((1 : ℝ) / 3)) = (1872075 : ℝ) / 10000 := by
    rw [h1, h2, show (729000 : ℝ) + 5832000 = 6561000 by norm_num, round4_root]
  refine ⟨?_, hval⟩
  rw [hval]
  exact mink_rowsX
